import Mathlib

/-!
# Verification of the Hendon tournament-results statistics engine

Shallow embedding of `src/main.py` (the row-filtering, money-parsing and
statistics-aggregation core of `extract_data`, together with `parse_money`).

Strings are modelled as `List Char`; Python floats are modelled as `ℚ`
(tie-breaking of decimal rounding and binary-float representation error lie
below this abstraction).  A Python exception escaping `extract_data` is
modelled by `Option`: `none` means the call raised.

Recursions over a suffix of the scanned list use an explicit fuel argument
initialised to the list length; every recursive call strictly shortens the
list, so the fuel never runs out and the zero-fuel branch is unreachable.
-/

attribute [local semireducible] Rat.add Rat.mul Rat.inv Rat.sub Rat.ofScientific

namespace Hendon

/-- ASCII decimal digit, the model of the regex class `\d`. -/
def isDigitChar (c : Char) : Bool := 48 ≤ c.toNat && c.toNat ≤ 57

/-- Whitespace, the model of the regex class `\s` and of `str.strip`
(space, tab, newline, carriage return, vertical tab, form feed,
non-breaking space). -/
def isSpaceChar (c : Char) : Bool :=
  c = ' ' || c = '\t' || c = '\n' || c = '\r' || c = '\u000B' || c = '\u000C' ||
    c = '\u00A0'

/-- Characters matched by the symbol group `[^\d\s,.-]` of `parse_money`. -/
def isSymChar (c : Char) : Bool :=
  !(isDigitChar c || isSpaceChar c || c = ',' || c = '.' || c = '-')

/-- Characters matched by the number group `[\d,.-]` of `parse_money`. -/
def isNumChar (c : Char) : Bool :=
  isDigitChar c || c = ',' || c = '.' || c = '-'

/-- Characters matched by the class `[\d,]` of the buy-in `re.findall`. -/
def isDCommaChar (c : Char) : Bool := isDigitChar c || c = ','

/-- Model of Python `str.strip()`: drop whitespace from both ends. -/
def pyStrip (l : List Char) : List Char :=
  ((l.dropWhile isSpaceChar).reverse.dropWhile isSpaceChar).reverse

/-- Worker for `searchMoney`. -/
def searchMoneyGo : Nat → List Char → Option (List Char × List Char)
  | 0, _ => none
  | _, [] => none
  | fuel + 1, c :: cs =>
    if isSymChar c then
      let sym := c :: cs.takeWhile isSymChar
      let afterSym := cs.dropWhile isSymChar
      let num := (afterSym.dropWhile isSpaceChar).takeWhile isNumChar
      if num.isEmpty then searchMoneyGo fuel afterSym else some (sym, num)
    else searchMoneyGo fuel cs

/-- Model of `re.search(r"([^\d\s,.-]+)\s*([\d,.-]+)", text)` in `parse_money`:
leftmost match of a run of symbol characters, optional whitespace, then a
nonempty run of number characters; returns the two groups.  The three
character classes partition `Char`, so the backtracking regex is equivalent
to this greedy scan. -/
def searchMoney (l : List Char) : Option (List Char × List Char) :=
  searchMoneyGo l.length l

/-- Decimal value of a digit string, the model of Python `int`/`float` digit
accumulation. -/
def digitsToNat (l : List Char) : Nat :=
  l.foldl (fun a c => a * 10 + (c.toNat - 48)) 0

/-- Model of Python `float(s)` on an unsigned string over digits, `.`, `-`:
`digits`, `digits.`, `digits.digits` or `.digits`; anything else fails. -/
def parseUnsigned (s : List Char) : Option ℚ :=
  let ip := s.takeWhile isDigitChar
  match s.dropWhile isDigitChar with
  | [] => if ip.isEmpty then none else some (digitsToNat ip : ℚ)
  | '.' :: frac =>
    if frac.all isDigitChar && !(ip.isEmpty && frac.isEmpty) then
      some ((digitsToNat ip : ℚ) + (digitsToNat frac : ℚ) / (10 : ℚ) ^ frac.length)
    else none
  | _ => none

/-- Model of Python `float(s)` for strings over digits, `.`, `-` (the only
characters reaching it in this program): optional leading minus sign then an
unsigned decimal; `none` models `ValueError`. -/
def parseFloat : List Char → Option ℚ
  | '-' :: rest => (parseUnsigned rest).map (fun q => -q)
  | s => parseUnsigned s

/-- The character predicate of `s.replace(",", "")`. -/
def notComma (c : Char) : Bool := c ≠ ','

/-- Model of `parse_money` (src/main.py lines 18-38): replace non-breaking
spaces, search for symbol+number, strip the symbol, parse the number with
commas removed; on any failure return `(None, 0.0)`. -/
def parse_money (text : List Char) : Option (List Char) × ℚ :=
  let t := text.map (fun c => if c = '\u00A0' then ' ' else c)
  match searchMoney t with
  | none => (none, 0)
  | some (sym, num) =>
    match parseFloat (num.filter notComma) with
    | some amt => (some (pyStrip sym), amt)
    | none => (none, 0)

/-- Worker for `findNumbers`. -/
def findNumbersGo : Nat → List Char → List (List Char)
  | 0, _ => []
  | _, [] => []
  | fuel + 1, c :: cs =>
    if isDCommaChar c then
      let run := c :: cs.takeWhile isDCommaChar
      match cs.dropWhile isDCommaChar with
      | '.' :: d :: r3 =>
        if isDigitChar d then
          (run ++ '.' :: d :: r3.takeWhile isDigitChar) ::
            findNumbersGo fuel (r3.dropWhile isDigitChar)
        else run :: findNumbersGo fuel ('.' :: d :: r3)
      | rest => run :: findNumbersGo fuel rest
    else findNumbersGo fuel cs

/-- Model of `re.findall(r"[\d,]+(?:\.\d+)?", text)`: leftmost non-overlapping
greedy matches of a run of digits/commas optionally followed by a dot and a
digit run. -/
def findNumbers (l : List Char) : List (List Char) :=
  findNumbersGo l.length l

/-- Model of `re.search(r"(\d{4})", dateText)`: the leftmost run of four
consecutive digits. -/
def findYear : List Char → Option (List Char)
  | a :: b :: c :: d :: rest =>
    if isDigitChar a && isDigitChar b && isDigitChar c && isDigitChar d then
      some [a, b, c, d]
    else findYear (b :: c :: d :: rest)
  | _ => none

/-! ## Row records and the per-request accumulators -/

/-- One tournament row as handed to the core by the DOM-selection layer:
the full text of the event-name cell (empty when the cell is missing, as in
line 73 of src/main.py), the stripped text of the anchor inside that cell
when one exists (line 99), the text of the date cell when one exists
(line 90), and the ordered texts of the `td.currency` cells (line 114). -/
structure RowRecord where
  eventNameText : List Char
  anchorText : Option (List Char)
  dateText : Option (List Char)
  currencyCellTexts : List (List Char)

/-- Does `hay` start with `needle`? -/
def leadsWith : List Char → List Char → Bool
  | [], _ => true
  | _ :: _, [] => false
  | a :: as, b :: bs => a = b && leadsWith as bs

/-- Model of Python `needle in hay` on strings: substring containment. -/
def containsSub (needle : List Char) : List Char → Bool
  | [] => needle.isEmpty
  | c :: rest => leadsWith needle (c :: rest) || containsSub needle rest

/-- The filter of lines 71-75: keep a row iff its event-name text does not
contain the (case-sensitive) substring `"Online"`. -/
def isLiveRow (r : RowRecord) : Bool :=
  !(containsSub "Online".data r.eventNameText)

/-- Python `d.get(k, v₀)` on an insertion-ordered dictionary modelled as an
association list. -/
def dictGet {β : Type} (d : List (List Char × β)) (k : List Char) (v₀ : β) : β :=
  match d with
  | [] => v₀
  | p :: rest => if p.1 = k then p.2 else dictGet rest k v₀

/-- Python `d[k] = v`: update in place if the key exists, else append. -/
def dictSet {β : Type} (d : List (List Char × β)) (k : List Char) (v : β) :
    List (List Char × β) :=
  match d with
  | [] => [(k, v)]
  | p :: rest => if p.1 = k then (k, v) :: rest else p :: dictSet rest k v

/-- Python `d.setdefault(k, v)`. -/
def setdefault {β : Type} (d : List (List Char × β)) (k : List Char) (v : β) :
    List (List Char × β) :=
  match d with
  | [] => [(k, v)]
  | p :: rest => if p.1 = k then p :: rest else p :: setdefault rest k v

/-- Python `d[k] = d.get(k, 0.0) + amt` (lines 111 and 123). -/
def dictAdd (d : List (List Char × ℚ)) (k : List Char) (amt : ℚ) :
    List (List Char × ℚ) :=
  dictSet d k (dictGet d k 0 + amt)

/-- Python `d[k].append(x)` (line 130); the key always exists there thanks to
the earlier `setdefault`. -/
def dictListAppend (d : List (List Char × List ℚ)) (k : List Char) (x : ℚ) :
    List (List Char × List ℚ) :=
  dictSet d k (dictGet d k [] ++ [x])

/-- Buy-in extraction, lines 96-111: parse the anchor text (if an anchor
exists) with `parse_money` for the symbol, then sum the first at most two
`re.findall` number groups.  Outer `none` models the uncaught `ValueError`
raised by `float` on a digit-free group; `some none` means no buy-in was
recorded for this row. -/
def buyinOfRow (r : RowRecord) : Option (Option (List Char × ℚ)) :=
  match r.anchorText with
  | none => some none
  | some raw =>
    let text := pyStrip raw
    match (parse_money text).1 with
    | none => some none
    | some _sym =>
      let numbers := (findNumbers text).take 2
      if numbers.isEmpty then some none
      else
        match numbers.mapM (fun n => parseFloat (n.filter notComma)) with
        | none => none
        | some vals => some (some ((parse_money text).1.getD [], vals.sum))

/-- Prize scan, lines 114-132: walk the currency cells in document order and
return the first parsed `(currency, value)` with truthy currency, positive
value, and currency equal to the buy-in currency; the
`prize_found_for_row` flag makes later iterations no-ops, so the row's whole
ledger/ROI effect is this single optional hit. -/
def findPrize (buyinCur : Option (List Char)) :
    List (List Char) → Option (List Char × ℚ)
  | [] => none
  | cell :: rest =>
    match parse_money (pyStrip cell) with
    | (some cur, v) =>
      if 0 < v ∧ some cur = buyinCur then some (cur, v)
      else findPrize buyinCur rest
    | (none, _) => findPrize buyinCur rest

/-- The five accumulators of lines 81-85. -/
structure Acc where
  total_buyins : List (List Char × ℚ)
  total_prizes : List (List Char × ℚ)
  individual_roi_list : List ℚ
  year_counts : List (List Char × Nat)
  year_roi_values : List (List Char × List ℚ)
deriving DecidableEq

def initAcc : Acc := ⟨[], [], [], [], []⟩

/-- The body of the row loop, lines 88-132, on one row:
year bookkeeping, buy-in parsing and ledgering, prize matching, ROI.
`none` models an exception escaping the loop. -/
def processRow (acc : Acc) (row : RowRecord) : Option Acc :=
  let year := row.dateText.bind findYear
  let acc₁ :=
    match year with
    | some y =>
      { acc with
        year_counts := dictSet acc.year_counts y (dictGet acc.year_counts y 0 + 1)
        year_roi_values := setdefault acc.year_roi_values y [] }
    | none => acc
  match buyinOfRow row with
  | none => none
  | some b =>
    let acc₂ :=
      match b with
      | some (cur, amt) => { acc₁ with total_buyins := dictAdd acc₁.total_buyins cur amt }
      | none => acc₁
    match findPrize (b.map Prod.fst) row.currencyCellTexts with
    | none => some acc₂
    | some (cur, v) =>
      let acc₃ := { acc₂ with total_prizes := dictAdd acc₂.total_prizes cur v }
      let buyinAmt := (b.map Prod.snd).getD 0
      if 0 < buyinAmt then
        let roi := v / buyinAmt
        some { acc₃ with
          individual_roi_list := acc₃.individual_roi_list ++ [roi]
          year_roi_values :=
            match year with
            | some y => dictListAppend acc₃.year_roi_values y roi
            | none => acc₃.year_roi_values }
      else some acc₃

/-- The row loop over a filtered row list. -/
def processRows (rows : List RowRecord) : Option Acc :=
  rows.foldlM processRow initAcc

/-! ## Rounding, sorting and rendering -/

/-- Model of Python `round(x, 4)`: rounding to four decimal digits (the
half-even tie-break of binary floats lies below the ℚ abstraction). -/
def round4 (q : ℚ) : ℚ := (round (q * 10000) : ℚ) / 10000

/-- Insert into a list sorted by `le`. -/
def insertSorted {α : Type} (le : α → α → Bool) (x : α) : List α → List α
  | [] => [x]
  | y :: ys => if le x y then x :: y :: ys else y :: insertSorted le x ys

/-- Stable insertion sort, the model of Python `sorted`. -/
def sortBy {α : Type} (le : α → α → Bool) : List α → List α
  | [] => []
  | x :: xs => insertSorted le x (sortBy le xs)

/-- Python string `<=`: code-point lexicographic comparison. -/
def listCharLe : List Char → List Char → Bool
  | [], _ => true
  | _ :: _, [] => false
  | a :: as, b :: bs => if a = b then listCharLe as bs else decide (a < b)

/-- Decimal digit characters of a natural number (fuel-based so that it
computes by kernel reduction). -/
def natToDigitsGo : Nat → Nat → List Char → List Char
  | 0, _, acc => acc
  | fuel + 1, n, acc =>
    let d := Char.ofNat (48 + n % 10)
    if n < 10 then d :: acc else natToDigitsGo fuel (n / 10) (d :: acc)

def natToDigits (n : Nat) : List Char := natToDigitsGo (n + 1) n []

/-- Group digit characters in threes from the right, the thousands separator
of the format spec `,`. -/
def chunk3 : List Char → List (List Char)
  | [] => []
  | [a] => [[a]]
  | [a, b] => [[a, b]]
  | [a, b, c] => [[a, b, c]]
  | a :: b :: c :: rest => [a, b, c] :: chunk3 rest

def addCommas (ds : List Char) : List Char :=
  (List.intercalate [','] (chunk3 ds.reverse)).reverse

/-- Pad a digit string on the left with zeros to length `n`. -/
def padZeros (n : Nat) (ds : List Char) : List Char :=
  List.replicate (n - ds.length) '0' ++ ds

/-- Model of the Python format `f"{amt:,.2f}"`: fixed two decimal digits,
thousands separators in the integer part, leading minus for negatives. -/
def format2 (q : ℚ) : List Char :=
  let neg := decide (q < 0)
  let cents := (round ((if neg then -q else q) * 100)).toNat
  (if neg then ['-'] else []) ++
    addCommas (natToDigits (cents / 100)) ++ '.' :: padZeros 2 (natToDigits (cents % 100))

/-- Drop trailing zero characters but keep at least one digit. -/
def stripZeros (ds : List Char) : List Char :=
  let r := ds.reverse.dropWhile (fun c => c = '0')
  if r.isEmpty then ['0'] else r.reverse

/-- Model of Python `str(float)` at the ℚ abstraction, exact for the values
reachable here (every rendered average has been rounded to four decimal
digits, so its denominator divides 10⁴ and the shortest float repr is its
plain decimal expansion): integer part, dot, fraction digits with trailing
zeros dropped but at least one digit. -/
def decRepr4 (q : ℚ) : List Char :=
  let neg := decide (q < 0)
  let m := ((if neg then -q else q) * 10000).floor.toNat
  (if neg then ['-'] else []) ++
    natToDigits (m / 10000) ++ '.' :: stripZeros (padZeros 4 (natToDigits (m % 10000)))

/-- Lines 148-152: one `"<symbol>: <amount>"` line per ledger entry, sorted
by symbol, joined by newlines. -/
def renderLedger (d : List (List Char × ℚ)) : List Char :=
  List.intercalate "\n".data
    ((sortBy (fun a b => listCharLe a.1 b.1) d).map
      (fun p => p.1 ++ ':' :: ' ' :: format2 p.2))

/-- Lines 138-144 before text rendering: year buckets sorted descending by
`int(year)`, each with its tournament count and rounded mean ROI
(`0.0` for a year with no ROI values). -/
def yearlyStats (acc : Acc) : List (List Char × Nat × ℚ) :=
  (sortBy (fun a b => decide (digitsToNat b.1 ≤ digitsToNat a.1)) acc.year_counts).map
    (fun p =>
      let rois := dictGet acc.year_roi_values p.1 []
      (p.1, p.2, if rois.isEmpty then 0 else round4 (rois.sum / rois.length)))

/-- Line 144: `f"{yr}: {count} tournaments, avg ROI {avg}"`. -/
def yearlyLine (p : List Char × Nat × ℚ) : List Char :=
  p.1 ++ ':' :: ' ' :: natToDigits p.2.1 ++ " tournaments, avg ROI ".data ++ decRepr4 p.2.2

/-! ## The final report -/

/-- The fields of the dictionary returned at lines 155-162. -/
structure Report where
  player : List Char
  totalTournaments : Nat
  averageROIByCash : ℚ
  yearlyStatsText : List Char
  totalBuyinsText : List Char
  totalPrizesText : List Char
deriving DecidableEq

/-- JSON value shapes occurring in the response. -/
inductive JVal where
  | s : List Char → JVal
  | n : ℚ → JVal
  | i : Nat → JVal
deriving DecidableEq

/-- The literal dictionary of lines 155-162, as an ordered key/value list. -/
def reportJson (r : Report) : List (List Char × JVal) :=
  [("player".data, JVal.s r.player),
   ("totalTournaments".data, JVal.i r.totalTournaments),
   ("averageROIByCash".data, JVal.n r.averageROIByCash),
   ("yearlyStatsText".data, JVal.s r.yearlyStatsText),
   ("totalBuyinsText".data, JVal.s r.totalBuyinsText),
   ("totalPrizesText".data, JVal.s r.totalPrizesText)]

/-- Python `d.get(k)` on the JSON object. -/
def jsonLookup (d : List (List Char × JVal)) (k : List Char) : Option JVal :=
  match d with
  | [] => none
  | p :: rest => if p.1 = k then some p.2 else jsonLookup rest k

/-- `extract_data` from the point where the rows have been selected
(lines 71-162): filter out `"Online"` rows, run the accumulator loop,
compute the overall average ROI, render the yearly and ledger texts.
`none` models an exception escaping `extract_data`. -/
def extract_data (player : List Char) (rows : List RowRecord) : Option Report :=
  let live := rows.filter isLiveRow
  match processRows live with
  | none => none
  | some acc =>
    some
      { player := player
        totalTournaments := live.length
        averageROIByCash :=
          if acc.individual_roi_list.isEmpty then 0
          else round4 (acc.individual_roi_list.sum / acc.individual_roi_list.length)
        yearlyStatsText := List.intercalate "\n".data ((yearlyStats acc).map yearlyLine)
        totalBuyinsText := renderLedger acc.total_buyins
        totalPrizesText := renderLedger acc.total_prizes }

/-! ## Per-row digests

The loop body of lines 88-132 is characterised row by row: each row
contributes an optional buy-in, an optional matched prize, an optional ROI,
and an optional year, all depending on the row alone. -/

/-- The year recorded for a row (line 90). -/
def yearOfRow (r : RowRecord) : Option (List Char) := r.dateText.bind findYear

/-- The buy-in `(currency, amount)` recorded for a row, ignoring the
exception case. -/
def rowBuyin (r : RowRecord) : Option (List Char × ℚ) :=
  match buyinOfRow r with
  | some b => b
  | none => none

/-- The single `(currency, value)` prize hit of a row. -/
def rowPrize (r : RowRecord) : Option (List Char × ℚ) :=
  match buyinOfRow r with
  | some b => findPrize (b.map Prod.fst) r.currencyCellTexts
  | none => none

/-- The ROI of a row: present exactly when the row has a positive buy-in
amount and a currency-matched positive prize. -/
def rowRoi (r : RowRecord) : Option ℚ :=
  match buyinOfRow r with
  | some (some (cur, amt)) =>
    match findPrize (some cur) r.currencyCellTexts with
    | some (_, v) => if 0 < amt then some (v / amt) else none
    | none => none
  | _ => none

/-- Specification-style form of the prize scan: the first parsed cell whose
currency equals the buy-in currency and whose value is positive. -/
def specFirstPrize (bc : Option (List Char)) (cells : List (List Char)) :
    Option (List Char × ℚ) :=
  ((cells.map (fun cell => parse_money (pyStrip cell))).find?
      (fun q => decide (q.1 = bc ∧ 0 < q.2))).map (fun q => (q.1.getD [], q.2))

/-- What one iteration of the row loop does to the accumulators. -/
def rowStep (acc : Acc) (r : RowRecord) : Acc :=
  { total_buyins :=
      match rowBuyin r with
      | some (c, a) => dictAdd acc.total_buyins c a
      | none => acc.total_buyins
    total_prizes :=
      match rowPrize r with
      | some (c, v) => dictAdd acc.total_prizes c v
      | none => acc.total_prizes
    individual_roi_list := acc.individual_roi_list ++ (rowRoi r).toList
    year_counts :=
      match yearOfRow r with
      | some y => dictSet acc.year_counts y (dictGet acc.year_counts y 0 + 1)
      | none => acc.year_counts
    year_roi_values :=
      match yearOfRow r with
      | none => acc.year_roi_values
      | some y =>
        match rowRoi r with
        | some roi => dictListAppend (setdefault acc.year_roi_values y []) y roi
        | none => setdefault acc.year_roi_values y [] }

/-- A concrete demonstration row list: one live ROI-bearing row and one
excluded "Online" row (Scenario A of the specification). -/
def scenarioRows : List RowRecord :=
  [⟨"$1,100 NLHE".data, some "$1,100 NLHE".data, some "01-Jan-2023".data,
    ["$2,200".data]⟩,
   ⟨"Online $500".data, some "Online $500".data, some "02-Jan-2023".data,
    ["$100".data]⟩]

/-- The report the engine produces on `scenarioRows`. -/
def scenarioReport : Report :=
  ⟨"P".data, 1, 2, "2023: 1 tournaments, avg ROI 2.0".data,
   "$: 1,100.00".data, "$: 2,200.00".data⟩

/-- A `None` buy-in currency never matches any cell. -/
theorem findPrize_none (cells : List (List Char)) : findPrize none cells = none := by
  induction cells with
  | nil => rfl
  | cons cell rest ih =>
    unfold findPrize
    cases h : parse_money (pyStrip cell) with
    | mk c v =>
      cases c with
      | none => exact ih
      | some cur => simp [ih]

/-- When `parse_money` reports no currency, it also reports amount `0`. -/
theorem parse_money_none_snd (t : List Char) (h : (parse_money t).1 = none) :
    (parse_money t).2 = 0 := by
  unfold parse_money at h ⊢
  cases hs : searchMoney (t.map (fun c => if c = '\u00A0' then ' ' else c)) with
  | none => simp [hs]
  | some p =>
    cases p with
    | mk sym num =>
      simp only [hs] at h ⊢
      cases hf : parseFloat (num.filter notComma) with
      | none => simp [hf]
      | some amt => simp [hf] at h

/-- The recursive prize scan agrees with its first-match specification. -/
theorem findPrize_eq_specFirstPrize (bc : Option (List Char))
    (cells : List (List Char)) : findPrize bc cells = specFirstPrize bc cells := by
  induction cells with
  | nil => rfl
  | cons cell rest ih =>
    unfold findPrize specFirstPrize
    rw [List.map_cons, List.find?_cons]
    cases h : parse_money (pyStrip cell) with
    | mk c v =>
      cases c with
      | none =>
        have hv : v = 0 := by
          have := parse_money_none_snd (pyStrip cell)
          rw [h] at this
          exact this rfl
        subst hv
        have : (decide (((none, (0 : ℚ)) : Option (List Char) × ℚ).1 = bc ∧
            0 < ((none, (0 : ℚ)) : Option (List Char) × ℚ).2)) = false := by
          simp
        rw [this]
        exact ih
      | some cur =>
        by_cases hc : 0 < v ∧ some cur = bc
        · have : (decide ((((some cur), v) : Option (List Char) × ℚ).1 = bc ∧
              0 < (((some cur), v) : Option (List Char) × ℚ).2)) = true := by
            simp only [decide_eq_true_eq]
            exact ⟨hc.2, hc.1⟩
          rw [this]
          simp only [hc, if_true, Option.map_some]
          obtain ⟨hv, hbc⟩ := hc
          rw [← hbc]
          rfl
        · have : (decide ((((some cur), v) : Option (List Char) × ℚ).1 = bc ∧
              0 < (((some cur), v) : Option (List Char) × ℚ).2)) = false := by
            simp only [decide_eq_false_iff_not]
            rintro ⟨h1, h2⟩
            exact hc ⟨h2, h1⟩
          rw [this]
          simp only [hc, if_false]
          exact ih

/-! ## Dictionary lemmas -/

theorem dictGet_dictSet_self {β : Type} (d : List (List Char × β)) (k : List Char)
    (v : β) (v₀ : β) : dictGet (dictSet d k v) k v₀ = v := by
  induction d with
  | nil => simp [dictSet, dictGet]
  | cons p rest ih =>
    by_cases h : p.1 = k
    · simp [dictSet, dictGet, h]
    · simp [dictSet, dictGet, h, ih]

theorem dictGet_dictSet_ne {β : Type} (d : List (List Char × β)) (k k' : List Char)
    (v : β) (v₀ : β) (hne : k' ≠ k) :
    dictGet (dictSet d k v) k' v₀ = dictGet d k' v₀ := by
  have hk : ¬(k = k') := fun h => hne h.symm
  induction d with
  | nil => simp [dictSet, dictGet, hk]
  | cons p rest ih =>
    by_cases h : p.1 = k
    · simp [dictSet, dictGet, h, hk]
    · simp only [dictSet, h, if_false]
      by_cases h' : p.1 = k'
      · simp [dictGet, h']
      · simp [dictGet, h', ih]

theorem dictGet_setdefault {β : Type} (d : List (List Char × β)) (k k' : List Char)
    (v : β) : dictGet (setdefault d k v) k' v = dictGet d k' v := by
  induction d with
  | nil =>
    by_cases h : k = k' <;> simp [setdefault, dictGet, h]
  | cons p rest ih =>
    by_cases h : p.1 = k
    · simp [setdefault, dictGet, h]
    · simp only [setdefault, h, if_false]
      by_cases h' : p.1 = k'
      · simp [dictGet, h']
      · simp [dictGet, h', ih]

theorem dictGet_dictListAppend_self (d : List (List Char × List ℚ)) (k : List Char)
    (x : ℚ) : dictGet (dictListAppend d k x) k [] = dictGet d k [] ++ [x] := by
  unfold dictListAppend
  rw [dictGet_dictSet_self]

theorem dictGet_dictListAppend_ne (d : List (List Char × List ℚ)) (k k' : List Char)
    (x : ℚ) (hne : k' ≠ k) :
    dictGet (dictListAppend d k x) k' [] = dictGet d k' [] := by
  unfold dictListAppend
  rw [dictGet_dictSet_ne _ _ _ _ _ hne]

theorem keys_dictSet {β : Type} (d : List (List Char × β)) (k : List Char) (v : β) :
    (dictSet d k v).map Prod.fst =
      if k ∈ d.map Prod.fst then d.map Prod.fst else d.map Prod.fst ++ [k] := by
  induction d with
  | nil => simp [dictSet]
  | cons p rest ih =>
    by_cases h : p.1 = k
    · have he : dictSet (p :: rest) k v = (k, v) :: rest := by
        simp only [dictSet]
        rw [if_pos h]
      have hm : k ∈ (p :: rest).map Prod.fst := by
        rw [List.map_cons, h]
        exact List.mem_cons_self _ _
      rw [he, if_pos hm, List.map_cons, List.map_cons, h]
    · have he : dictSet (p :: rest) k v = p :: dictSet rest k v := by
        simp only [dictSet]
        rw [if_neg h]
      have hne : ¬k = p.1 := fun hk => h hk.symm
      rw [he, List.map_cons, ih, List.map_cons]
      by_cases hm : k ∈ rest.map Prod.fst
      · rw [if_pos hm, if_pos (List.mem_cons_of_mem _ hm)]
      · have hnm : ¬k ∈ (p.1 :: rest.map Prod.fst) := by
          intro hk
          rcases List.mem_cons.mp hk with h1 | h1
          · exact hne h1
          · exact hm h1
        rw [if_neg hm, if_neg hnm, List.cons_append]

theorem keys_setdefault {β : Type} (d : List (List Char × β)) (k : List Char) (v : β) :
    (setdefault d k v).map Prod.fst =
      if k ∈ d.map Prod.fst then d.map Prod.fst else d.map Prod.fst ++ [k] := by
  induction d with
  | nil => simp [setdefault]
  | cons p rest ih =>
    by_cases h : p.1 = k
    · have he : setdefault (p :: rest) k v = p :: rest := by
        simp only [setdefault]
        rw [if_pos h]
      have hm : k ∈ (p :: rest).map Prod.fst := by
        rw [List.map_cons, h]
        exact List.mem_cons_self _ _
      rw [he, if_pos hm]
    · have he : setdefault (p :: rest) k v = p :: setdefault rest k v := by
        simp only [setdefault]
        rw [if_neg h]
      have hne : ¬k = p.1 := fun hk => h hk.symm
      rw [he, List.map_cons, ih, List.map_cons]
      by_cases hm : k ∈ rest.map Prod.fst
      · rw [if_pos hm, if_pos (List.mem_cons_of_mem _ hm)]
      · have hnm : ¬k ∈ (p.1 :: rest.map Prod.fst) := by
          intro hk
          rcases List.mem_cons.mp hk with h1 | h1
          · exact hne h1
          · exact hm h1
        rw [if_neg hm, if_neg hnm, List.cons_append]

theorem nodup_keys_dictSet {β : Type} (d : List (List Char × β)) (k : List Char)
    (v : β) (h : (d.map Prod.fst).Nodup) : ((dictSet d k v).map Prod.fst).Nodup := by
  rw [keys_dictSet]
  by_cases hm : k ∈ d.map Prod.fst
  · rw [if_pos hm]
    exact h
  · rw [if_neg hm]
    refine List.Nodup.append h (List.nodup_singleton k) ?_
    intro a ha hak
    rw [List.mem_singleton] at hak
    exact hm (hak ▸ ha)

/-- In a dictionary with no duplicate keys, membership determines lookup. -/
theorem dictGet_of_mem {β : Type} (d : List (List Char × β)) (k : List Char)
    (v : β) (v₀ : β) (hnd : (d.map Prod.fst).Nodup) (hm : (k, v) ∈ d) :
    dictGet d k v₀ = v := by
  induction d with
  | nil => simp at hm
  | cons p rest ih =>
    simp only [List.map_cons, List.nodup_cons] at hnd
    rcases List.mem_cons.mp hm with h | h
    · subst h
      simp [dictGet]
    · have hk : p.1 ≠ k := by
        intro he
        exact hnd.1 (he ▸ (List.mem_map.mpr ⟨(k, v), h, rfl⟩))
      simp [dictGet, hk, ih hnd.2 h]

theorem mem_keys_iff {β : Type} (d : List (List Char × β)) (k : List Char) :
    k ∈ d.map Prod.fst ↔ ∃ v, (k, v) ∈ d := by
  constructor
  · intro h
    obtain ⟨p, hp, hk⟩ := List.mem_map.mp h
    exact ⟨p.2, by simpa [← hk] using hp⟩
  · rintro ⟨v, hv⟩
    exact List.mem_map.mpr ⟨(k, v), hv, rfl⟩

/-! ## The row loop, characterised row by row -/

/-- A successful iteration of the row loop is exactly `rowStep`; it succeeds
exactly when the buy-in parse does not raise. -/
theorem processRow_eq_rowStep (acc : Acc) (r : RowRecord)
    (b : Option (List Char × ℚ)) (hb : buyinOfRow r = some b) :
    processRow acc r = some (rowStep acc r) := by
  unfold processRow rowStep rowBuyin rowPrize rowRoi yearOfRow
  rw [hb]
  cases hy : r.dateText.bind findYear <;> cases b <;> dsimp only
  case none.none =>
    simp only [Option.map_none', findPrize_none, Option.toList_none, List.append_nil]
  case none.some p =>
    obtain ⟨cur, amt⟩ := p
    simp only [Option.map_some', Option.getD_some]
    cases hp : findPrize (some cur) r.currencyCellTexts
    case none => simp
    case some q =>
      obtain ⟨c, v⟩ := q
      by_cases hamt : 0 < amt <;> simp [hamt]
  case some.none y =>
    simp only [Option.map_none', findPrize_none, Option.toList_none, List.append_nil]
  case some.some y p =>
    obtain ⟨cur, amt⟩ := p
    simp only [Option.map_some', Option.getD_some]
    cases hp : findPrize (some cur) r.currencyCellTexts
    case none => simp
    case some q =>
      obtain ⟨c, v⟩ := q
      by_cases hamt : 0 < amt <;> simp [hamt]

/-- The row loop raises exactly when the buy-in parse raises. -/
theorem processRow_none (acc : Acc) (r : RowRecord) (hb : buyinOfRow r = none) :
    processRow acc r = none := by
  unfold processRow
  rw [hb]

/-! ## The row loop, characterised over a whole row list -/

theorem foldlM_roiList (rows : List RowRecord) :
    ∀ (acc acc' : Acc), rows.foldlM processRow acc = some acc' →
      acc'.individual_roi_list = acc.individual_roi_list ++ rows.filterMap rowRoi := by
  induction rows with
  | nil =>
    intro acc acc' h
    simp only [List.foldlM_nil] at h
    cases h
    simp
  | cons r rest ih =>
    intro acc acc' h
    rw [List.foldlM_cons] at h
    cases hb : buyinOfRow r with
    | none =>
      rw [processRow_none acc r hb] at h
      simp at h
    | some b =>
      rw [processRow_eq_rowStep acc r b hb] at h
      simp only [Option.bind_eq_bind, Option.some_bind] at h
      rw [ih _ _ h]
      show (rowStep acc r).individual_roi_list ++ _ = _
      rw [List.filterMap_cons]
      cases hroi : rowRoi r
      · simp [rowStep, hroi]
      · simp [rowStep, hroi]

theorem foldlM_buyins (rows : List RowRecord) :
    ∀ (acc acc' : Acc), rows.foldlM processRow acc = some acc' →
      acc'.total_buyins =
        (rows.filterMap rowBuyin).foldl (fun d p => dictAdd d p.1 p.2)
          acc.total_buyins := by
  induction rows with
  | nil =>
    intro acc acc' h
    simp only [List.foldlM_nil] at h
    cases h
    simp
  | cons r rest ih =>
    intro acc acc' h
    rw [List.foldlM_cons] at h
    cases hb : buyinOfRow r with
    | none =>
      rw [processRow_none acc r hb] at h
      simp at h
    | some b =>
      rw [processRow_eq_rowStep acc r b hb] at h
      simp only [Option.bind_eq_bind, Option.some_bind] at h
      rw [ih _ _ h]
      rw [List.filterMap_cons]
      cases hbr : rowBuyin r
      · simp [rowStep, hbr]
      · simp [rowStep, hbr]

theorem foldlM_prizes (rows : List RowRecord) :
    ∀ (acc acc' : Acc), rows.foldlM processRow acc = some acc' →
      acc'.total_prizes =
        (rows.filterMap rowPrize).foldl (fun d p => dictAdd d p.1 p.2)
          acc.total_prizes := by
  induction rows with
  | nil =>
    intro acc acc' h
    simp only [List.foldlM_nil] at h
    cases h
    simp
  | cons r rest ih =>
    intro acc acc' h
    rw [List.foldlM_cons] at h
    cases hb : buyinOfRow r with
    | none =>
      rw [processRow_none acc r hb] at h
      simp at h
    | some b =>
      rw [processRow_eq_rowStep acc r b hb] at h
      simp only [Option.bind_eq_bind, Option.some_bind] at h
      rw [ih _ _ h]
      rw [List.filterMap_cons]
      cases hpr : rowPrize r
      · simp [rowStep, hpr]
      · simp [rowStep, hpr]

theorem foldlM_year_counts (rows : List RowRecord) :
    ∀ (acc acc' : Acc) (y : List Char), rows.foldlM processRow acc = some acc' →
      dictGet acc'.year_counts y 0 =
        dictGet acc.year_counts y 0 +
          rows.countP (fun r => decide (yearOfRow r = some y)) := by
  induction rows with
  | nil =>
    intro acc acc' y h
    simp only [List.foldlM_nil] at h
    cases h
    simp
  | cons r rest ih =>
    intro acc acc' y h
    rw [List.foldlM_cons] at h
    cases hb : buyinOfRow r with
    | none =>
      rw [processRow_none acc r hb] at h
      simp at h
    | some b =>
      rw [processRow_eq_rowStep acc r b hb] at h
      simp only [Option.bind_eq_bind, Option.some_bind] at h
      rw [ih _ _ y h, List.countP_cons]
      cases hyr : yearOfRow r with
      | none =>
        have hstep : (rowStep acc r).year_counts = acc.year_counts := by
          simp [rowStep, hyr]
        rw [hstep]
        simp
      | some z =>
        have hstep : (rowStep acc r).year_counts =
            dictSet acc.year_counts z (dictGet acc.year_counts z 0 + 1) := by
          simp [rowStep, hyr]
        by_cases hz : z = y
        · subst hz
          rw [hstep, dictGet_dictSet_self]
          simp
          omega
        · rw [hstep, dictGet_dictSet_ne _ _ _ _ _ (fun hh => hz hh.symm)]
          simp [hz]

theorem foldlM_year_rois (rows : List RowRecord) :
    ∀ (acc acc' : Acc) (y : List Char), rows.foldlM processRow acc = some acc' →
      dictGet acc'.year_roi_values y [] =
        dictGet acc.year_roi_values y [] ++
          (rows.filter (fun r => decide (yearOfRow r = some y))).filterMap rowRoi := by
  induction rows with
  | nil =>
    intro acc acc' y h
    simp only [List.foldlM_nil] at h
    cases h
    simp
  | cons r rest ih =>
    intro acc acc' y h
    rw [List.foldlM_cons] at h
    cases hb : buyinOfRow r with
    | none =>
      rw [processRow_none acc r hb] at h
      simp at h
    | some b =>
      rw [processRow_eq_rowStep acc r b hb] at h
      simp only [Option.bind_eq_bind, Option.some_bind] at h
      rw [ih _ _ y h, List.filter_cons]
      cases hyr : yearOfRow r with
      | none =>
        have hstep : (rowStep acc r).year_roi_values = acc.year_roi_values := by
          simp [rowStep, hyr]
        rw [hstep]
        simp
      | some z =>
        by_cases hz : z = y
        · subst hz
          cases hroi : rowRoi r with
          | none =>
            have hstep : (rowStep acc r).year_roi_values =
                setdefault acc.year_roi_values z [] := by
              simp [rowStep, hyr, hroi]
            rw [hstep, dictGet_setdefault]
            simp [List.filterMap_cons, hroi]
          | some roi =>
            have hstep : (rowStep acc r).year_roi_values =
                dictListAppend (setdefault acc.year_roi_values z []) z roi := by
              simp [rowStep, hyr, hroi]
            rw [hstep, dictGet_dictListAppend_self, dictGet_setdefault]
            simp [List.filterMap_cons, hroi]
        · have hyz : y ≠ z := fun hh => hz hh.symm
          cases hroi : rowRoi r with
          | none =>
            have hstep : (rowStep acc r).year_roi_values =
                setdefault acc.year_roi_values z [] := by
              simp [rowStep, hyr, hroi]
            rw [hstep, dictGet_setdefault]
            simp [hz]
          | some roi =>
            have hstep : (rowStep acc r).year_roi_values =
                dictListAppend (setdefault acc.year_roi_values z []) z roi := by
              simp [rowStep, hyr, hroi]
            rw [hstep, dictGet_dictListAppend_ne _ _ _ _ hyz, dictGet_setdefault]
            simp [hz]

theorem foldlM_year_keys_mem (rows : List RowRecord) :
    ∀ (acc acc' : Acc) (y : List Char), rows.foldlM processRow acc = some acc' →
      (y ∈ acc'.year_counts.map Prod.fst ↔
        y ∈ acc.year_counts.map Prod.fst ∨ ∃ r, r ∈ rows ∧ yearOfRow r = some y) := by
  induction rows with
  | nil =>
    intro acc acc' y h
    simp only [List.foldlM_nil] at h
    cases h
    simp
  | cons r rest ih =>
    intro acc acc' y h
    rw [List.foldlM_cons] at h
    cases hb : buyinOfRow r with
    | none =>
      rw [processRow_none acc r hb] at h
      simp at h
    | some b =>
      rw [processRow_eq_rowStep acc r b hb] at h
      simp only [Option.bind_eq_bind, Option.some_bind] at h
      rw [ih _ _ y h]
      cases hyr : yearOfRow r with
      | none =>
        have : (rowStep acc r).year_counts = acc.year_counts := by
          simp [rowStep, hyr]
        rw [this]
        constructor
        · rintro (hm | ⟨r', hr', hy'⟩)
          · exact Or.inl hm
          · exact Or.inr ⟨r', List.mem_cons_of_mem _ hr', hy'⟩
        · rintro (hm | ⟨r', hr', hy'⟩)
          · exact Or.inl hm
          · rcases List.mem_cons.mp hr' with he | he
            · subst he
              rw [hyr] at hy'
              cases hy'
            · exact Or.inr ⟨r', he, hy'⟩
      | some z =>
        have : (rowStep acc r).year_counts =
            dictSet acc.year_counts z (dictGet acc.year_counts z 0 + 1) := by
          simp [rowStep, hyr]
        rw [this, keys_dictSet]
        have hmz : y ∈ (if z ∈ acc.year_counts.map Prod.fst
            then acc.year_counts.map Prod.fst
            else acc.year_counts.map Prod.fst ++ [z]) ↔
            y ∈ acc.year_counts.map Prod.fst ∨ y = z := by
          by_cases hzin : z ∈ acc.year_counts.map Prod.fst
          · rw [if_pos hzin]
            constructor
            · exact fun hh => Or.inl hh
            · rintro (hh | hh)
              · exact hh
              · exact hh ▸ hzin
          · rw [if_neg hzin]
            rw [List.mem_append, List.mem_singleton]
        rw [hmz]
        constructor
        · rintro ((hm | hy') | ⟨r', hr', hy'⟩)
          · exact Or.inl hm
          · exact Or.inr ⟨r, List.mem_cons_self _ _, by rw [hyr, hy']⟩
          · exact Or.inr ⟨r', List.mem_cons_of_mem _ hr', hy'⟩
        · rintro (hm | ⟨r', hr', hy'⟩)
          · exact Or.inl (Or.inl hm)
          · rcases List.mem_cons.mp hr' with he | he
            · subst he
              rw [hyr] at hy'
              cases hy'
              exact Or.inl (Or.inr rfl)
            · exact Or.inr ⟨r', he, hy'⟩

theorem foldlM_year_keys_nodup (rows : List RowRecord) :
    ∀ (acc acc' : Acc), rows.foldlM processRow acc = some acc' →
      (acc.year_counts.map Prod.fst).Nodup →
      (acc'.year_counts.map Prod.fst).Nodup := by
  induction rows with
  | nil =>
    intro acc acc' h hnd
    simp only [List.foldlM_nil] at h
    cases h
    exact hnd
  | cons r rest ih =>
    intro acc acc' h hnd
    rw [List.foldlM_cons] at h
    cases hb : buyinOfRow r with
    | none =>
      rw [processRow_none acc r hb] at h
      simp at h
    | some b =>
      rw [processRow_eq_rowStep acc r b hb] at h
      simp only [Option.bind_eq_bind, Option.some_bind] at h
      refine ih _ _ h ?_
      cases hyr : yearOfRow r with
      | none =>
        have : (rowStep acc r).year_counts = acc.year_counts := by
          simp [rowStep, hyr]
        rw [this]
        exact hnd
      | some z =>
        have : (rowStep acc r).year_counts =
            dictSet acc.year_counts z (dictGet acc.year_counts z 0 + 1) := by
          simp [rowStep, hyr]
        rw [this]
        exact nodup_keys_dictSet _ _ _ hnd

/-- The result of `findYear` is always four digit characters. -/
theorem findYear_shape : ∀ (t y : List Char), findYear t = some y →
    y.length = 4 ∧ y.all isDigitChar = true := by
  intro t
  induction t with
  | nil => intro y h; simp [findYear] at h
  | cons a rest ih =>
    intro y h
    match rest, h with
    | [], h => simp [findYear] at h
    | [b], h => simp [findYear] at h
    | [b, c], h => simp [findYear] at h
    | b :: c :: d :: rest', h =>
      rw [findYear] at h
      by_cases hd : (isDigitChar a && isDigitChar b && isDigitChar c && isDigitChar d) = true
      · rw [if_pos hd] at h
        cases h
        simp only [Bool.and_eq_true] at hd
        refine ⟨rfl, ?_⟩
        simp [List.all_cons, hd.1.1.1, hd.1.1.2, hd.1.2, hd.2]
      · rw [if_neg hd] at h
        exact ih y h

theorem foldlM_year_keys_shape (rows : List RowRecord) :
    ∀ (acc acc' : Acc) (y : List Char), rows.foldlM processRow acc = some acc' →
      y ∈ acc'.year_counts.map Prod.fst →
      y ∈ acc.year_counts.map Prod.fst ∨ (y.length = 4 ∧ y.all isDigitChar = true) := by
  induction rows with
  | nil =>
    intro acc acc' y h hm
    simp only [List.foldlM_nil] at h
    cases h
    exact Or.inl hm
  | cons r rest ih =>
    intro acc acc' y h hm
    rw [List.foldlM_cons] at h
    cases hb : buyinOfRow r with
    | none =>
      rw [processRow_none acc r hb] at h
      simp at h
    | some b =>
      rw [processRow_eq_rowStep acc r b hb] at h
      simp only [Option.bind_eq_bind, Option.some_bind] at h
      rcases ih _ _ y h hm with hin | hshape
      · cases hyr : yearOfRow r with
        | none =>
          have : (rowStep acc r).year_counts = acc.year_counts := by
            simp [rowStep, hyr]
          rw [this] at hin
          exact Or.inl hin
        | some z =>
          have : (rowStep acc r).year_counts =
              dictSet acc.year_counts z (dictGet acc.year_counts z 0 + 1) := by
            simp [rowStep, hyr]
          rw [this, keys_dictSet] at hin
          by_cases hzin : z ∈ acc.year_counts.map Prod.fst
          · rw [if_pos hzin] at hin
            exact Or.inl hin
          · rw [if_neg hzin] at hin
            rcases List.mem_append.mp hin with hin' | hin'
            · exact Or.inl hin'
            · rw [List.mem_singleton] at hin'
              subst hin'
              obtain ⟨dt, hdt, hfy⟩ := Option.bind_eq_some.mp hyr
              exact Or.inr (findYear_shape dt y hfy)
      · exact Or.inr hshape

/-! ## Sorting lemmas -/

theorem insertSorted_perm {α : Type} (le : α → α → Bool) (x : α) (l : List α) :
    (insertSorted le x l).Perm (x :: l) := by
  induction l with
  | nil => exact List.Perm.refl _
  | cons y ys ih =>
    by_cases h : le x y
    · simp only [insertSorted, h, if_true]
      exact List.Perm.refl _
    · simp only [insertSorted, h, Bool.false_eq_true, if_false]
      exact (ih.cons y).trans (List.Perm.swap x y ys)

theorem sortBy_perm {α : Type} (le : α → α → Bool) (l : List α) :
    (sortBy le l).Perm l := by
  induction l with
  | nil => exact List.Perm.refl _
  | cons x xs ih =>
    exact (insertSorted_perm le x (sortBy le xs)).trans (ih.cons x)

theorem mem_insertSorted {α : Type} (le : α → α → Bool) (x a : α) (l : List α) :
    a ∈ insertSorted le x l ↔ a = x ∨ a ∈ l := by
  rw [(insertSorted_perm le x l).mem_iff, List.mem_cons]

theorem pairwise_insertSorted {α : Type} (le : α → α → Bool)
    (htot : ∀ a b, le a b = true ∨ le b a = true)
    (htrans : ∀ a b c, le a b = true → le b c = true → le a c = true)
    (x : α) (l : List α) (h : l.Pairwise (fun a b => le a b = true)) :
    (insertSorted le x l).Pairwise (fun a b => le a b = true) := by
  induction l with
  | nil => simp [insertSorted]
  | cons y ys ih =>
    rw [List.pairwise_cons] at h
    by_cases hxy : le x y
    · simp only [insertSorted, hxy, if_true]
      rw [List.pairwise_cons]
      refine ⟨?_, List.pairwise_cons.mpr h⟩
      intro a ha
      rcases List.mem_cons.mp ha with he | hm
      · exact he ▸ hxy
      · exact htrans x y a hxy (h.1 a hm)
    · simp only [insertSorted, hxy, Bool.false_eq_true, if_false]
      rw [List.pairwise_cons]
      refine ⟨?_, ih h.2⟩
      intro a ha
      rcases (mem_insertSorted le x a ys).mp ha with he | hm
      · subst he
        rcases htot a y with h1 | h1
        · exact absurd h1 hxy
        · exact h1
      · exact h.1 a hm

theorem sortBy_pairwise {α : Type} (le : α → α → Bool)
    (htot : ∀ a b, le a b = true ∨ le b a = true)
    (htrans : ∀ a b c, le a b = true → le b c = true → le a c = true)
    (l : List α) : (sortBy le l).Pairwise (fun a b => le a b = true) := by
  induction l with
  | nil => simp [sortBy]
  | cons x xs ih => exact pairwise_insertSorted le htot htrans x (sortBy le xs) ih

/-! ## Properties of the lexicographic string order -/

theorem listCharLe_total : ∀ (a b : List Char),
    listCharLe a b = true ∨ listCharLe b a = true := by
  intro a
  induction a with
  | nil => intro b; exact Or.inl rfl
  | cons x xs ih =>
    intro b
    cases b with
    | nil => exact Or.inr rfl
    | cons y ys =>
      by_cases hxy : x = y
      · subst hxy
        simp only [listCharLe, if_pos rfl]
        exact ih ys
      · have hyx : ¬(y = x) := fun hh => hxy hh.symm
        rcases lt_or_gt_of_ne (fun hh => hxy hh : x ≠ y) with hlt | hgt
        · simp only [listCharLe, if_neg hxy, if_neg hyx]
          exact Or.inl (by simpa using hlt)
        · simp only [listCharLe, if_neg hxy, if_neg hyx]
          exact Or.inr (by simpa using hgt)

theorem listCharLe_trans : ∀ (a b c : List Char),
    listCharLe a b = true → listCharLe b c = true → listCharLe a c = true := by
  intro a
  induction a with
  | nil => intro b c _ _; rfl
  | cons x xs ih =>
    intro b c hab hbc
    cases b with
    | nil => simp [listCharLe] at hab
    | cons y ys =>
      cases c with
      | nil => simp [listCharLe] at hbc
      | cons z zs =>
        by_cases hxy : x = y <;> by_cases hyz : y = z
        · subst hxy; subst hyz
          simp only [listCharLe, if_pos rfl] at hab hbc ⊢
          exact ih ys zs hab hbc
        · subst hxy
          simp only [listCharLe, if_pos rfl, if_neg hyz] at hab hbc ⊢
          exact hbc
        · subst hyz
          simp only [listCharLe, if_neg hxy] at hab ⊢
          exact hab
        · simp only [listCharLe, if_neg hxy, if_neg hyz] at hab hbc
          have hlt1 : x < y := by simpa using hab
          have hlt2 : y < z := by simpa using hbc
          have hxz : x < z := lt_trans hlt1 hlt2
          have hne : ¬(x = z) := ne_of_lt hxz
          simp only [listCharLe, if_neg hne]
          simpa using hxz

/-! ## Injectivity of the year key -/

theorem digitsToNat_four (a b c d : Char) :
    digitsToNat [a, b, c, d] =
      ((a.toNat - 48) * 1000 + (b.toNat - 48) * 100 + (c.toNat - 48) * 10 +
        (d.toNat - 48)) := by
  simp [digitsToNat, List.foldl]
  ring

theorem digitsToNat_inj_four (y₁ y₂ : List Char)
    (h1 : y₁.length = 4) (h2 : y₂.length = 4)
    (hd1 : y₁.all isDigitChar = true) (hd2 : y₂.all isDigitChar = true)
    (he : digitsToNat y₁ = digitsToNat y₂) : y₁ = y₂ := by
  match y₁, h1 with
  | [a, b, c, d], _ =>
  match y₂, h2 with
  | [a', b', c', d'], _ =>
  simp only [List.all_cons, List.all_nil, Bool.and_eq_true, isDigitChar,
    decide_eq_true_eq] at hd1 hd2
  rw [digitsToNat_four, digitsToNat_four] at he
  have h4 : a.toNat = a'.toNat ∧ b.toNat = b'.toNat ∧ c.toNat = c'.toNat ∧
      d.toNat = d'.toNat := by omega
  obtain ⟨hA, hB, hC, hD⟩ := h4
  rw [Char.eq_of_val_eq (UInt32.ext hA), Char.eq_of_val_eq (UInt32.ext hB),
    Char.eq_of_val_eq (UInt32.ext hC), Char.eq_of_val_eq (UInt32.ext hD)]

/-! ## Claims -/

/-- C1, counterexample: the exclusion filter of lines 71-75 is
case-sensitive.  A row whose event name contains the lowercase word
"online" (but not "Online") is counted in `totalTournaments`, contradicting
the claim that rows containing "online" in any letter case are excluded. -/
theorem C1_counterexample_lowercase_online_counted :
    containsSub "online".data "online $100 NLHE".data = true ∧
    (extract_data "P".data
      [⟨"online $100 NLHE".data, none, none, []⟩]).map Report.totalTournaments =
      some 1 := by
  constructor
  · decide
  · decide

/-- C1, amended: a row whose event-name text contains the case-sensitive
substring `"Online"` is excluded entirely: deleting it from the row list
does not change the report, so it is not counted in `totalTournaments`,
contributes to no ledger, and appears in no yearly bucket. -/
theorem C1_online_rows_fully_excluded (p : List Char)
    (rows₁ rows₂ : List RowRecord) (r : RowRecord)
    (h : containsSub "Online".data r.eventNameText = true) :
    extract_data p (rows₁ ++ r :: rows₂) = extract_data p (rows₁ ++ rows₂) := by
  have hlive : isLiveRow r = false := by
    unfold isLiveRow
    rw [h]
    rfl
  have hf : (rows₁ ++ r :: rows₂).filter isLiveRow =
      (rows₁ ++ rows₂).filter isLiveRow := by
    simp [List.filter_append, List.filter_cons, hlive]
  unfold extract_data
  rw [hf]

/-- C1, witness for the amended theorem at a concrete online row. -/
theorem C1_witness :
    containsSub "Online".data "Online $500".data = true ∧
    extract_data "P".data
      [⟨"Online $500".data, some "Online $500".data, some "02-Jan-2023".data,
        ["$100".data]⟩] = extract_data "P".data [] :=
  ⟨by decide,
   C1_online_rows_fully_excluded "P".data [] []
     ⟨"Online $500".data, some "Online $500".data, some "02-Jan-2023".data,
      ["$100".data]⟩ (by decide)⟩

/-- C4, counterexample: the returned object has no structured
`totalBuyins`, `totalPrizes` or `yearlyStats` members (lines 155-162 return
only the text renderings besides player, count and average). -/
theorem C4_counterexample_structured_fields_absent :
    (extract_data "P".data []).map (fun rep =>
      (jsonLookup (reportJson rep) "totalBuyins".data,
       jsonLookup (reportJson rep) "totalPrizes".data,
       jsonLookup (reportJson rep) "yearlyStats".data)) =
    some (none, none, none) := by
  decide

/-- C4, amended: besides the player name, the total count and the average
ROI, the final report carries only the rendered text blocks; its keys are
exactly `player`, `totalTournaments`, `averageROIByCash`,
`yearlyStatsText`, `totalBuyinsText`, `totalPrizesText`, and no
per-currency maps or structured yearly list exist. -/
theorem C4_report_carries_text_fields_only (rep : Report) :
    (reportJson rep).map Prod.fst =
      ["player".data, "totalTournaments".data, "averageROIByCash".data,
       "yearlyStatsText".data, "totalBuyinsText".data, "totalPrizesText".data] ∧
    jsonLookup (reportJson rep) "totalBuyins".data = none ∧
    jsonLookup (reportJson rep) "totalPrizes".data = none ∧
    jsonLookup (reportJson rep) "yearlyStats".data = none := by
  refine ⟨rfl, ?_, ?_, ?_⟩ <;> rfl

/-- C9: an empty row list yields a normal report with zero totals, empty
ledgers and text blocks, average ROI `0.0` and no yearly statistics — not
an error. -/
theorem C9_empty_rows_zero_report (p : List Char) :
    extract_data p [] =
      some { player := p, totalTournaments := 0, averageROIByCash := 0,
             yearlyStatsText := [], totalBuyinsText := [],
             totalPrizesText := [] } := rfl

/-- C10: a buy-in is parsed only from the anchor inside the event-name
cell.  A row without an anchor leaves the buy-in ledger, the prize ledger
and the ROI list untouched (no fallback to the cell's plain text), yet
still counts toward `totalTournaments` and its year's count. -/
theorem C10_no_anchor_no_buyin (acc : Acc) (r : RowRecord)
    (h : r.anchorText = none) :
    processRow acc r = some (rowStep acc r) ∧
    (rowStep acc r).total_buyins = acc.total_buyins ∧
    (rowStep acc r).total_prizes = acc.total_prizes ∧
    (rowStep acc r).individual_roi_list = acc.individual_roi_list ∧
    (∀ y, yearOfRow r = some y →
      dictGet (rowStep acc r).year_counts y 0 = dictGet acc.year_counts y 0 + 1) ∧
    (isLiveRow r = true → ∀ p rows₁ rows₂ rep,
      extract_data p (rows₁ ++ r :: rows₂) = some rep →
      rep.totalTournaments =
        (rows₁.filter isLiveRow).length + 1 + (rows₂.filter isLiveRow).length) := by
  have hb : buyinOfRow r = some none := by
    unfold buyinOfRow
    rw [h]
  have hprize : rowPrize r = none := by
    unfold rowPrize
    rw [hb]
    simp [findPrize_none]
  have hroi : rowRoi r = none := by
    unfold rowRoi
    rw [hb]
  refine ⟨processRow_eq_rowStep acc r none hb, ?_, ?_, ?_, ?_, ?_⟩
  · unfold rowStep rowBuyin
    rw [hb]
  · unfold rowStep
    rw [hprize]
  · unfold rowStep
    rw [hroi]
    simp
  · intro y hy
    unfold rowStep
    rw [hy, dictGet_dictSet_self]
  · intro hlive p rows₁ rows₂ rep hrep
    have hf : (rows₁ ++ r :: rows₂).filter isLiveRow =
        rows₁.filter isLiveRow ++ r :: rows₂.filter isLiveRow := by
      simp [List.filter_append, List.filter_cons, hlive]
    simp only [extract_data] at hrep
    rw [hf] at hrep
    cases hacc : processRows (rows₁.filter isLiveRow ++ r :: rows₂.filter isLiveRow) with
    | none =>
      rw [hacc] at hrep
      cases hrep
    | some acc' =>
      rw [hacc] at hrep
      injection hrep with hrep'
      rw [← hrep']
      simp [List.length_append]
      omega

/-- C10, witness: a concrete anchor-free row whose plain event text does
contain money text. -/
theorem C10_witness :
    processRow initAcc
        ⟨"$500 NLHE".data, none, some "05-May-2022".data, ["$500".data]⟩ =
      some (rowStep initAcc
        ⟨"$500 NLHE".data, none, some "05-May-2022".data, ["$500".data]⟩) ∧
    (rowStep initAcc
        ⟨"$500 NLHE".data, none, some "05-May-2022".data, ["$500".data]⟩).total_buyins =
      initAcc.total_buyins ∧
    dictGet (rowStep initAcc
        ⟨"$500 NLHE".data, none, some "05-May-2022".data, ["$500".data]⟩).year_counts
        "2022".data 0 =
      dictGet initAcc.year_counts "2022".data 0 + 1 ∧
    (extract_data "P".data
        [⟨"$500 NLHE".data, none, some "05-May-2022".data, ["$500".data]⟩]).map
      Report.totalTournaments = some 1 := by
  have H := C10_no_anchor_no_buyin initAcc
    ⟨"$500 NLHE".data, none, some "05-May-2022".data, ["$500".data]⟩ rfl
  exact ⟨H.1, H.2.1, H.2.2.2.2.1 "2022".data (by decide), by decide⟩

/-- C2, counterexample: a prize cell that parses successfully but whose
currency differs from the buy-in currency is NOT added to `totalPrizes`
(line 121 requires the currency match before the ledger update of line
123).  Here `"€50"` parses to `(€, 50)` yet the prize ledger stays empty. -/
theorem C2_counterexample_mismatched_prize_not_ledgered :
    parse_money (pyStrip "€50".data) = (some "€".data, 50) ∧
    processRows [⟨"NLHE $100".data, some "$100".data, none, ["€50".data]⟩] =
      some ⟨[("$".data, 100)], [], [], [], []⟩ := by
  constructor
  · decide
  · decide

/-- C2, amended: for every included row, the only amount added to
`totalPrizes` is the single per-row hit: the first currency cell whose
parsed currency equals the row's buy-in currency and whose parsed amount is
positive; cells of any other currency (and all later or non-positive
cells) contribute nothing to the prize ledger. -/
theorem C2_prize_ledger_only_matched_cell :
    (∀ (bc : Option (List Char)) (cells : List (List Char)),
      findPrize bc cells = specFirstPrize bc cells) ∧
    (∀ (rows : List RowRecord) (acc : Acc), processRows rows = some acc →
      acc.total_prizes =
        (rows.filterMap rowPrize).foldl (fun d q => dictAdd d q.1 q.2) []) := by
  refine ⟨findPrize_eq_specFirstPrize, ?_⟩
  intro rows acc h
  unfold processRows at h
  have := foldlM_prizes rows initAcc acc h
  simpa [initAcc] using this

/-- C2, witness: two concrete rows; only the currency-matched `€600` cell
reaches the prize ledger. -/
theorem C2_witness :
    processRows
      [⟨"NLHE $100".data, some "$100".data, none, ["€50".data]⟩,
       ⟨"PLO €200".data, some "€200".data, none, ["€600".data]⟩] =
      some ⟨[("$".data, 100), ("€".data, 200)], [("€".data, 600)], [3], [], []⟩ ∧
    (⟨[("$".data, 100), ("€".data, 200)], [("€".data, 600)], [3], [], []⟩ :
        Acc).total_prizes =
      (([⟨"NLHE $100".data, some "$100".data, none, ["€50".data]⟩,
         ⟨"PLO €200".data, some "€200".data, none, ["€600".data]⟩] :
          List RowRecord).filterMap rowPrize).foldl
        (fun d q => dictAdd d q.1 q.2) [] :=
  ⟨by decide,
   C2_prize_ledger_only_matched_cell.2
     [⟨"NLHE $100".data, some "$100".data, none, ["€50".data]⟩,
      ⟨"PLO €200".data, some "€200".data, none, ["€600".data]⟩]
     ⟨[("$".data, 100), ("€".data, 200)], [("€".data, 600)], [3], [], []⟩
     (by decide)⟩

/-- C3: when the anchor text yields a currency symbol, the buy-in amount is
the sum of at most the first two numeric groups found by the number regex —
any third or later group is ignored — and in particular `"$1,000 + 100"`
yields amount `1100` with currency `"$"`. -/
theorem C3_buyin_sums_first_two_groups :
    (∀ (t sym g₁ g₂ : List Char) (gs : List (List Char)) (v₁ v₂ : ℚ),
      (parse_money (pyStrip t)).1 = some sym →
      findNumbers (pyStrip t) = g₁ :: g₂ :: gs →
      parseFloat (g₁.filter notComma) = some v₁ →
      parseFloat (g₂.filter notComma) = some v₂ →
      ∀ (e : List Char) (dt : Option (List Char)) (cells : List (List Char)),
        buyinOfRow ⟨e, some t, dt, cells⟩ = some (some (sym, v₁ + v₂))) ∧
    (∀ (t sym g₁ : List Char) (v₁ : ℚ),
      (parse_money (pyStrip t)).1 = some sym →
      findNumbers (pyStrip t) = [g₁] →
      parseFloat (g₁.filter notComma) = some v₁ →
      ∀ (e : List Char) (dt : Option (List Char)) (cells : List (List Char)),
        buyinOfRow ⟨e, some t, dt, cells⟩ = some (some (sym, v₁))) ∧
    (∀ (e : List Char) (dt : Option (List Char)) (cells : List (List Char)),
      buyinOfRow ⟨e, some "$1,000 + 100".data, dt, cells⟩ =
        some (some ("$".data, 1100))) := by
  have h2 : ∀ (t sym g₁ g₂ : List Char) (gs : List (List Char)) (v₁ v₂ : ℚ),
      (parse_money (pyStrip t)).1 = some sym →
      findNumbers (pyStrip t) = g₁ :: g₂ :: gs →
      parseFloat (g₁.filter notComma) = some v₁ →
      parseFloat (g₂.filter notComma) = some v₂ →
      ∀ (e : List Char) (dt : Option (List Char)) (cells : List (List Char)),
        buyinOfRow ⟨e, some t, dt, cells⟩ = some (some (sym, v₁ + v₂)) := by
    intro t sym g₁ g₂ gs v₁ v₂ hp hn h1 h2 e dt cells
    unfold buyinOfRow
    simp only [hp, hn, List.take_succ_cons, List.take_zero, List.isEmpty_cons,
      Option.getD_some]
    simp [List.mapM.loop, h1, h2]
  have h1 : ∀ (t sym g₁ : List Char) (v₁ : ℚ),
      (parse_money (pyStrip t)).1 = some sym →
      findNumbers (pyStrip t) = [g₁] →
      parseFloat (g₁.filter notComma) = some v₁ →
      ∀ (e : List Char) (dt : Option (List Char)) (cells : List (List Char)),
        buyinOfRow ⟨e, some t, dt, cells⟩ = some (some (sym, v₁)) := by
    intro t sym g₁ v₁ hp hn h1 e dt cells
    unfold buyinOfRow
    simp only [hp, hn, List.take_succ_cons, List.take_zero, List.take_nil,
      List.isEmpty_cons, Option.getD_some]
    simp [List.mapM.loop, h1]
  refine ⟨h2, h1, ?_⟩
  intro e dt cells
  have := h2 "$1,000 + 100".data "$".data "1,000".data "100".data [] 1000 100
    (by decide) (by decide) (by decide) (by decide) e dt cells
  rw [this]
  norm_num

/-- C3, witness: the general theorem applied at the spec's own example. -/
theorem C3_witness :
    (parse_money (pyStrip "$1,000 + 100".data)).1 = some "$".data ∧
    findNumbers (pyStrip "$1,000 + 100".data) = ["1,000".data, "100".data] ∧
    parseFloat ("1,000".data.filter notComma) = some 1000 ∧
    parseFloat ("100".data.filter notComma) = some 100 ∧
    buyinOfRow ⟨[], some "$1,000 + 100".data, none, []⟩ =
      some (some ("$".data, 1000 + 100)) :=
  ⟨by decide, by decide, by decide, by decide,
   C3_buyin_sums_first_two_groups.1 "$1,000 + 100".data "$".data "1,000".data
     "100".data [] 1000 100 (by decide) (by decide) (by decide) (by decide)
     [] none []⟩

/-- C5, counterexample: a currency-matched prize cell whose parsed amount
is `0` is skipped (the `prize_value > 0` conjunct on line 121), so the scan
continues: against the claim, the later `"$200"` cell becomes the ROI
prize and the average ROI is `2.0`, not `0.0`. -/
theorem C5_counterexample_zero_cell_skipped :
    parse_money (pyStrip "$0".data) = (some "$".data, 0) ∧
    (extract_data "P".data
      [⟨"$100 NLHE".data, some "$100".data, none,
        ["$0".data, "$200".data]⟩]).map Report.averageROIByCash = some 2 := by
  constructor
  · decide
  · decide

/-- C5, amended: the ROI-eligible prize is the first currency cell in
document order whose parsed currency equals the buy-in currency AND whose
parsed amount is positive (a matching cell with amount `0` is skipped and
scanning continues); when `buyinAmount > 0` and such a cell exists,
`roi = prizeAmount / buyinAmount` is recorded, otherwise no ROI. -/
theorem C5_roi_first_positive_matching_cell :
    (∀ (bc : Option (List Char)) (cells : List (List Char)),
      findPrize bc cells = specFirstPrize bc cells) ∧
    (∀ (r : RowRecord) (cur : List Char) (amt : ℚ),
      buyinOfRow r = some (some (cur, amt)) →
      rowRoi r =
        match findPrize (some cur) r.currencyCellTexts with
        | some (_, v) => if 0 < amt then some (v / amt) else none
        | none => none) ∧
    (∀ (acc : Acc) (r : RowRecord) (acc' : Acc), processRow acc r = some acc' →
      acc'.individual_roi_list = acc.individual_roi_list ++ (rowRoi r).toList) := by
  refine ⟨findPrize_eq_specFirstPrize, ?_, ?_⟩
  · intro r cur amt hb
    unfold rowRoi
    rw [hb]
  · intro acc r acc' h
    cases hb : buyinOfRow r with
    | none =>
      rw [processRow_none acc r hb] at h
      cases h
    | some b =>
      rw [processRow_eq_rowStep acc r b hb] at h
      injection h with h'
      rw [← h']
      rfl

/-- C5, witness: the amended theorem applied at a concrete row with a
matched zero cell followed by a matched positive cell. -/
theorem C5_witness :
    rowRoi ⟨"$100 NLHE".data, some "$100".data, none,
      ["$0".data, "$200".data]⟩ = some 2 ∧
    processRow initAcc
      ⟨"$100 NLHE".data, some "$100".data, none, ["$0".data, "$200".data]⟩ =
      some (rowStep initAcc
        ⟨"$100 NLHE".data, some "$100".data, none, ["$0".data, "$200".data]⟩) ∧
    (rowStep initAcc
      ⟨"$100 NLHE".data, some "$100".data, none,
        ["$0".data, "$200".data]⟩).individual_roi_list =
      initAcc.individual_roi_list ++
        (rowRoi ⟨"$100 NLHE".data, some "$100".data, none,
          ["$0".data, "$200".data]⟩).toList :=
  ⟨by decide, by decide,
   C5_roi_first_positive_matching_cell.2.2 initAcc
     ⟨"$100 NLHE".data, some "$100".data, none, ["$0".data, "$200".data]⟩
     (rowStep initAcc
       ⟨"$100 NLHE".data, some "$100".data, none, ["$0".data, "$200".data]⟩)
     (by decide)⟩

/-- C6: `averageROIByCash` is the arithmetic mean of the per-event ROI
values over exactly the included events whose ROI is present, rounded to
four decimal digits, and `0.0` when no included event has a ROI. -/
theorem C6_average_roi_rounded_mean (p : List Char) (rows : List RowRecord)
    (rep : Report) (h : extract_data p rows = some rep) :
    rep.averageROIByCash =
      (if ((rows.filter isLiveRow).filterMap rowRoi).isEmpty then 0
       else round4 (((rows.filter isLiveRow).filterMap rowRoi).sum /
         ((rows.filter isLiveRow).filterMap rowRoi).length)) := by
  simp only [extract_data] at h
  cases hacc : processRows (rows.filter isLiveRow) with
  | none =>
    rw [hacc] at h
    cases h
  | some acc =>
    rw [hacc] at h
    injection h with h'
    rw [← h']
    have hlist : acc.individual_roi_list = (rows.filter isLiveRow).filterMap rowRoi := by
      unfold processRows at hacc
      have := foldlM_roiList (rows.filter isLiveRow) initAcc acc hacc
      simpa [initAcc] using this
    dsimp only
    rw [hlist]

/-- C6, witness: the theorem applied at a two-row list with one online and
one ROI-bearing live row. -/
theorem C6_witness :
    extract_data "P".data scenarioRows = some scenarioReport ∧
    scenarioReport.averageROIByCash =
      (if ((scenarioRows.filter isLiveRow).filterMap rowRoi).isEmpty then 0
       else round4 (((scenarioRows.filter isLiveRow).filterMap rowRoi).sum /
         ((scenarioRows.filter isLiveRow).filterMap rowRoi).length)) :=
  ⟨by decide,
   C6_average_roi_rounded_mean "P".data scenarioRows scenarioReport (by decide)⟩

/-- C8: the rendered ledger text lists the ledger entries sorted ascending
lexicographically on the raw currency symbol, one `"<symbol>: <amount>"`
line per entry with the amount in fixed two-decimal format with thousands
separators, joined by newlines; an empty ledger renders as the empty
string. -/
theorem C8_ledger_text_sorted_lines (d : List (List Char × ℚ)) :
    (sortBy (fun a b => listCharLe a.1 b.1) d).Perm d ∧
    ((sortBy (fun a b => listCharLe a.1 b.1) d).map Prod.fst).Pairwise
      (fun a b => listCharLe a b = true) ∧
    renderLedger d = List.intercalate "\n".data
      ((sortBy (fun a b => listCharLe a.1 b.1) d).map
        (fun q => q.1 ++ ':' :: ' ' :: format2 q.2)) ∧
    renderLedger [] = [] := by
  refine ⟨sortBy_perm _ d, ?_, rfl, rfl⟩
  have hpw := sortBy_pairwise (fun a b : List Char × ℚ => listCharLe a.1 b.1)
    (fun a b => listCharLe_total a.1 b.1)
    (fun a b c => listCharLe_trans a.1 b.1 c.1) d
  rw [List.pairwise_map]
  exact hpw

/-- C7: the yearly statistics underlying the rendered yearly text are
ordered strictly descending by numeric year; each year's bucket counts
exactly the included events carrying that year (a row with no parseable
four-digit year reaches no bucket, and a bucket exists exactly for the
years of included rows); and each bucket's average ROI is the mean of that
year's ROI list rounded to four decimal digits, `0.0` when the list is
empty. -/
theorem C7_yearly_stats_descending_counts_mean (p : List Char)
    (rows : List RowRecord) (rep : Report) (h : extract_data p rows = some rep) :
    ∃ stats : List (List Char × Nat × ℚ),
      rep.yearlyStatsText = List.intercalate "\n".data (stats.map yearlyLine) ∧
      (stats.map (fun q => digitsToNat q.1)).Pairwise (fun a b => b < a) ∧
      (∀ y c avg, (y, c, avg) ∈ stats →
        c = (rows.filter isLiveRow).countP
              (fun r => decide (yearOfRow r = some y)) ∧
        avg = (if (((rows.filter isLiveRow).filter
                    (fun r => decide (yearOfRow r = some y))).filterMap rowRoi).isEmpty
               then 0
               else round4 ((((rows.filter isLiveRow).filter
                    (fun r => decide (yearOfRow r = some y))).filterMap rowRoi).sum /
                  (((rows.filter isLiveRow).filter
                    (fun r => decide (yearOfRow r = some y))).filterMap rowRoi).length))) ∧
      (∀ y, (∃ c avg, (y, c, avg) ∈ stats) ↔
        ∃ r, r ∈ rows.filter isLiveRow ∧ yearOfRow r = some y) := by
  simp only [extract_data] at h
  cases hacc : processRows (rows.filter isLiveRow) with
  | none =>
    rw [hacc] at h
    cases h
  | some acc =>
    rw [hacc] at h
    injection h with h'
    unfold processRows at hacc
    have hnd : (acc.year_counts.map Prod.fst).Nodup :=
      foldlM_year_keys_nodup _ initAcc acc hacc (by simp [initAcc])
    have hshape : ∀ y, y ∈ acc.year_counts.map Prod.fst →
        y.length = 4 ∧ y.all isDigitChar = true := by
      intro y hy
      rcases foldlM_year_keys_shape _ initAcc acc y hacc hy with hin | hs
      · simp [initAcc] at hin
      · exact hs
    have hperm : (sortBy (fun a b : List Char × Nat =>
        decide (digitsToNat b.1 ≤ digitsToNat a.1)) acc.year_counts).Perm
        acc.year_counts := sortBy_perm _ _
    refine ⟨yearlyStats acc, ?_, ?_, ?_, ?_⟩
    · rw [← h']
    · unfold yearlyStats
      rw [List.pairwise_map, List.pairwise_map]
      have hpw := sortBy_pairwise
        (fun a b : List Char × Nat => decide (digitsToNat b.1 ≤ digitsToNat a.1))
        (fun a b => by
          rcases Nat.le_total (digitsToNat b.1) (digitsToNat a.1) with hle | hle
          · exact Or.inl (by simpa using hle)
          · exact Or.inr (by simpa using hle))
        (fun a b c hab hbc => by
          simp only [decide_eq_true_eq] at hab hbc ⊢
          exact le_trans hbc hab)
        acc.year_counts
      have hndG : ((sortBy (fun a b : List Char × Nat =>
          decide (digitsToNat b.1 ≤ digitsToNat a.1)) acc.year_counts).map
          Prod.fst).Nodup := ((hperm.map Prod.fst).nodup_iff).mpr hnd
      have hne : (sortBy (fun a b : List Char × Nat =>
          decide (digitsToNat b.1 ≤ digitsToNat a.1)) acc.year_counts).Pairwise
          (fun a b => a.1 ≠ b.1) := (List.pairwise_map).mp hndG
      refine ((hpw.and hne).imp_of_mem ?_)
      intro a b ha hb hab
      obtain ⟨hle, hab2⟩ := hab
      simp only [decide_eq_true_eq] at hle
      have hsa := hshape a.1 (List.mem_map.mpr ⟨a, hperm.mem_iff.mp ha, rfl⟩)
      have hsb := hshape b.1 (List.mem_map.mpr ⟨b, hperm.mem_iff.mp hb, rfl⟩)
      refine lt_of_le_of_ne hle ?_
      intro heq
      exact hab2 (digitsToNat_inj_four a.1 b.1 hsa.1 hsb.1 hsa.2 hsb.2 heq.symm)
    · intro y c avg hmem
      unfold yearlyStats at hmem
      obtain ⟨q, hqG, hfq⟩ := List.mem_map.mp hmem
      have hq1 : q.1 = y := congrArg Prod.fst hfq
      have h23 := congrArg Prod.snd hfq
      have hq2 : q.2 = c := congrArg Prod.fst h23
      have hq3 := congrArg Prod.snd h23
      dsimp only at hq3
      have hqacc : q ∈ acc.year_counts := hperm.mem_iff.mp hqG
      have hmemyc : (y, c) ∈ acc.year_counts := by
        rw [← hq1, ← hq2]
        simpa using hqacc
      constructor
      · have hget : dictGet acc.year_counts y 0 = c :=
          dictGet_of_mem acc.year_counts y c 0 hnd hmemyc
        have hcount := foldlM_year_counts _ initAcc acc y hacc
        simp only [initAcc] at hcount
        rw [hget] at hcount
        simpa [dictGet] using hcount
      · have hrois := foldlM_year_rois _ initAcc acc y hacc
        simp only [initAcc] at hrois
        simp only [dictGet, List.nil_append] at hrois
        rw [← hq3, hq1, hrois]
    · intro y
      constructor
      · rintro ⟨c, avg, hmem⟩
        unfold yearlyStats at hmem
        obtain ⟨q, hqG, hfq⟩ := List.mem_map.mp hmem
        have hq1 : q.1 = y := congrArg Prod.fst hfq
        have hyk : y ∈ acc.year_counts.map Prod.fst :=
          List.mem_map.mpr ⟨q, hperm.mem_iff.mp hqG, hq1⟩
        rcases (foldlM_year_keys_mem _ initAcc acc y hacc).mp hyk with hin | hex
        · simp [initAcc] at hin
        · exact hex
      · rintro ⟨r, hr, hy⟩
        have hyk : y ∈ acc.year_counts.map Prod.fst :=
          (foldlM_year_keys_mem _ initAcc acc y hacc).mpr (Or.inr ⟨r, hr, hy⟩)
        obtain ⟨v, hv⟩ := (mem_keys_iff acc.year_counts y).mp hyk
        have hvG : (y, v) ∈ sortBy (fun a b : List Char × Nat =>
            decide (digitsToNat b.1 ≤ digitsToNat a.1)) acc.year_counts :=
          hperm.mem_iff.mpr hv
        unfold yearlyStats
        exact ⟨v, _, List.mem_map.mpr ⟨(y, v), hvG, rfl⟩⟩

/-- C7, witness: the theorem applied at the concrete scenario rows. -/
theorem C7_witness :
    extract_data "P".data scenarioRows = some scenarioReport ∧
    ∃ stats : List (List Char × Nat × ℚ),
      scenarioReport.yearlyStatsText =
        List.intercalate "\n".data (stats.map yearlyLine) ∧
      (stats.map (fun q => digitsToNat q.1)).Pairwise (fun a b => b < a) ∧
      (∀ y c avg, (y, c, avg) ∈ stats →
        c = (scenarioRows.filter isLiveRow).countP
              (fun r => decide (yearOfRow r = some y)) ∧
        avg = (if (((scenarioRows.filter isLiveRow).filter
                    (fun r => decide (yearOfRow r = some y))).filterMap rowRoi).isEmpty
               then 0
               else round4 ((((scenarioRows.filter isLiveRow).filter
                    (fun r => decide (yearOfRow r = some y))).filterMap rowRoi).sum /
                  (((scenarioRows.filter isLiveRow).filter
                    (fun r => decide (yearOfRow r = some y))).filterMap rowRoi).length))) ∧
      (∀ y, (∃ c avg, (y, c, avg) ∈ stats) ↔
        ∃ r, r ∈ scenarioRows.filter isLiveRow ∧ yearOfRow r = some y) :=
  ⟨by decide,
   C7_yearly_stats_descending_counts_mean "P".data scenarioRows scenarioReport
     (by decide)⟩

/-! ## Model validation on concrete inputs

Concrete evaluations of the embedded functions, matching the behaviour of
the Python implementation on the same strings and the scenarios of the
specification. -/

example : parse_money "$1,000".data = (some "$".data, 1000) := by decide

example : parse_money "€50".data = (some "€".data, 50) := by decide

example : parse_money "NT$ 3,500.25".data = (some "NT$".data, 3500.25) := by decide

example : parse_money "abc".data = (none, 0) := by decide

example : parse_money "$-.5".data = (some "$".data, -(1 / 2 : ℚ)) := by decide

example : parse_money "$,,".data = (none, 0) := by decide

example : findNumbers "$1,000 + 100".data = ["1,000".data, "100".data] := by decide

example : findNumbers "1.2.3 8 or Better".data = ["1.2".data, "3".data, "8".data] := by
  decide

example : findYear "01-Jan-2023".data = some "2023".data := by decide

example : parse_money "€\u00A0100".data = (some "€".data, 100) := by decide

example : parse_money "NT$\u00A03,500".data = (some "NT$".data, 3500) := by decide

example : pyStrip "\u00A0$5\u00A0".data = "$5".data := by decide

example : extract_data "P".data scenarioRows = some scenarioReport := by decide

example : extract_data "P".data [] = some ⟨"P".data, 0, 0, [], [], []⟩ := by decide

example :
    (extract_data "P".data
      [⟨"€550 PLO".data, some "€550 PLO".data, some "05-May-2022".data,
        ["$0".data, "€1,650".data]⟩]).map Report.averageROIByCash = some 3 := by
  decide

example :
    extract_data "P".data [⟨"x".data, some "$5 , 3".data, none, []⟩] = none := by
  decide

end Hendon
